import Mathlib

/-!
Verification development for the mixesdbsync track-matching core
(normalizer, scorer, strategy cascade), shallowly embedded from
src/mixesdbsync/matcher/normalizer.py, scorer.py and strategy.py.
Strings are modelled as lists of characters; Python floats are modelled
as exact rationals; the regular-expression operations used by the code
are implemented directly, pattern by pattern, following the semantics of
Python's re module on those concrete patterns.
-/

namespace Mixes

/-- Strings are modelled as lists of characters. -/
abbrev Str := List Char

/-- Convert a Lean string literal to the character-list representation. -/
def str (s : String) : Str := s.data

/-- Whitespace class of Python regular expressions and str.strip, modelled
over ASCII. -/
def isPySpace (c : Char) : Bool :=
  c = ' ' || c = '\t' || c = '\n' || c = '\r' || c = '\x0b' || c = '\x0c'

/-- Decimal-digit class of Python regular expressions, modelled over ASCII. -/
def isPyDigit (c : Char) : Bool := '0' ≤ c && c ≤ '9'

/-- Model of Python str.lower on one character (ASCII). -/
def lowerC (c : Char) : Char := c.toLower

/-- Lowercase a whole string. -/
def lowerS (s : Str) : Str := s.map lowerC

/-- Model of Python str.strip: remove leading and trailing whitespace. -/
def pStrip (s : Str) : Str :=
  ((s.dropWhile isPySpace).reverse.dropWhile isPySpace).reverse

/-- Contiguous-substring occurrence test: does the needle occur inside hay. -/
def containsSeq : Str → Str → Bool
  | n, [] => n.isEmpty
  | n, c :: cs => n.isPrefixOf (c :: cs) || containsSeq n cs

/-- Fueled worker for replaceAll; the fuel is the length of the string. -/
def replaceAllF (pat rep : Str) : Nat → Str → Str
  | _, [] => []
  | 0, s => s
  | fuel+1, c :: cs =>
    if pat.isPrefixOf (c :: cs) && !pat.isEmpty then
      rep ++ replaceAllF pat rep fuel (cs.drop (pat.length - 1))
    else c :: replaceAllF pat rep fuel cs

/-- Model of Python str.replace: replace every non-overlapping occurrence of a
non-empty pattern, scanning left to right. -/
def replaceAll (pat rep s : Str) : Str := replaceAllF pat rep s.length s

/-- Fueled worker for subAll; the fuel is the length of the string. -/
def subAllF (m : Str → Option Nat) : Nat → Str → Str
  | _, [] => []
  | 0, s => s
  | fuel+1, c :: cs =>
    match m (c :: cs) with
    | some (n+1) => subAllF m fuel (cs.drop n)
    | _ => c :: subAllF m fuel cs

/-- Model of Python re.sub with empty replacement, for a pattern that never
matches the empty string: delete every match, scanning left to right. The
matcher receives the current suffix and reports the match length there. -/
def subAll (m : Str → Option Nat) (s : Str) : Str := subAllF m s.length s

/-- Fueled worker for searchGroup; the fuel is the length of the string. -/
def searchGroupF (m : Str → Option (Nat × Str)) : Nat → Str → Option Str
  | _, [] => none
  | 0, _ => none
  | fuel+1, c :: cs =>
    match m (c :: cs) with
    | some (_, g) => some g
    | none => searchGroupF m fuel cs

/-- Model of Python re.search: the capture group of the leftmost match. -/
def searchGroup (m : Str → Option (Nat × Str)) (s : Str) : Option Str :=
  searchGroupF m s.length s

/-! Normalizer: embedding of TrackNormalizer (normalizer.py). -/

/-- Model of Python unicodedata NFKD normalization followed by ASCII
encode-with-ignore (an external library call): identity on ASCII characters,
common Latin accented letters fold to their base letter (the pipeline has
already lowercased, and decomposition of an accented capital also lowers
through Python str.lower, so the table targets lowercase), every other
non-ASCII character is dropped. -/
def asciiFold (c : Char) : Option Char :=
  if c.toNat < 128 then some c
  else if c ∈ ['á', 'à', 'â', 'ä', 'ã', 'å', 'Á', 'À', 'Â', 'Ä', 'Ã', 'Å'] then some 'a'
  else if c ∈ ['é', 'è', 'ê', 'ë', 'É', 'È', 'Ê', 'Ë'] then some 'e'
  else if c ∈ ['í', 'ì', 'î', 'ï', 'Í', 'Ì', 'Î', 'Ï'] then some 'i'
  else if c ∈ ['ó', 'ò', 'ô', 'ö', 'õ', 'Ó', 'Ò', 'Ô', 'Ö', 'Õ'] then some 'o'
  else if c ∈ ['ú', 'ù', 'û', 'ü', 'Ú', 'Ù', 'Û', 'Ü'] then some 'u'
  else if c ∈ ['ý', 'ÿ', 'Ý'] then some 'y'
  else if c ∈ ['ñ', 'Ñ'] then some 'n'
  else if c ∈ ['ç', 'Ç'] then some 'c'
  else none

/-- TrackNormalizer.REPLACEMENTS, in dictionary insertion order. -/
def replacements : List (Str × Str) :=
  [(str " & ", str " and "), (str " vs ", str " versus "),
   (str " vs. ", str " versus "), (str " ft ", str " featuring "),
   (str " ft. ", str " featuring "), (str " feat ", str " featuring "),
   (str " feat. ", str " featuring "), (str " w/ ", str " with ")]

/-- Apply the replacement table in order, as the source loop does. -/
def applyReplacements (s : Str) : Str :=
  replacements.foldl (fun t p => replaceAll p.1 p.2 t) s

/-- Literal patterns of TrackNormalizer.REMOVE_PATTERNS (matched
case-insensitively), excluding the final quote-character class. -/
def removeLiterals : List Str :=
  [str "(original mix)", str "(original)", str "(radio edit)",
   str "(extended mix)", str "(extended)", str "(club mix)"]

/-- Matcher for one case-insensitive literal at the current position. -/
def litAt (lit : Str) (s : Str) : Option Nat :=
  if lowerS (s.take lit.length) == lit then some lit.length else none

/-- Quote-character class of the last REMOVE_PATTERNS entry. -/
def isQuoteChar (c : Char) : Bool := c = '\x27' || c = '"' || c = '\x60'

/-- Apply the REMOVE_PATTERNS list in order: the six literal edition markers,
then removal of every quote character. -/
def applyRemovals (s : Str) : Str :=
  (removeLiterals.foldl (fun t lit => subAll (litAt lit) t) s).filter
    (fun c => !isQuoteChar c)

/-- Worker replacing each maximal whitespace run by one space; the flag says
whether the previous character was part of a run. -/
def collapseF : Bool → Str → Str
  | _, [] => []
  | prevWs, c :: cs =>
    if isPySpace c then
      if prevWs then collapseF true cs else ' ' :: collapseF true cs
    else c :: collapseF false cs

/-- Model of re.sub collapsing whitespace runs to one space, then str.strip. -/
def pyCollapse (s : Str) : Str := pStrip (collapseF false s)

/-- TrackNormalizer.normalize: lowercase, fold to ASCII, expand join-word
variants, drop edition markers and quotes, collapse whitespace. -/
def normalize (s : Str) : Str :=
  pyCollapse (applyRemovals (applyReplacements ((s.map lowerC).filterMap asciiFold)))

/-- Keyword list of the Normalizer's REMIX_PATTERN, lowercased. -/
def normKeywords : List Str :=
  [str "remix", str "mix", str "edit", str "version", str "dub",
   str "rework", str "bootleg"]

/-- Keyword list of the Scorer's remix patterns, lowercased (it additionally
holds the word reconstructed). -/
def scorerKeywords : List Str :=
  [str "remix", str "mix", str "edit", str "version", str "dub",
   str "rework", str "bootleg", str "reconstructed"]

/-- Case-insensitive test that some keyword of the list occurs in the string. -/
def hasKeyword (kws : List Str) (s : Str) : Bool :=
  kws.any fun k => containsSeq k (lowerS s)

/-- Matcher for a parenthesised remix tag at the current position, following
the pattern of an opening parenthesis, a run of non-parenthesis characters
containing one of the keywords, and a closing parenthesis. Returns the match
length and the capture group (the run between the parentheses). -/
def parenAt (kws : List Str) : Str → Option (Nat × Str)
  | '(' :: rest =>
    let run := rest.takeWhile (fun c => c != ')')
    if (rest.drop run.length).head? == some ')' && hasKeyword kws run then
      some (run.length + 2, run)
    else none
  | _ => none

/-- Matcher for a square-bracketed label annotation at the current position,
following the Python pattern of a bracket, one or more non-bracket
characters, and a closing bracket. -/
def bracketAt : Str → Option Nat
  | '[' :: rest =>
    let run := rest.takeWhile (fun c => c != ']')
    if !run.isEmpty && (rest.drop run.length).head? == some ']' then
      some (run.length + 2)
    else none
  | _ => none

/-- Word-character class of Python regular expressions, modelled over ASCII. -/
def isWordChar (c : Char) : Bool := c.isAlpha || c.isDigit || c = '_'

/-- TrackNormalizer.normalize_for_search: normalize, drop bracketed labels,
drop parenthesised remix tags, blank out punctuation, collapse whitespace. -/
def normalizeForSearch (s : Str) : Str :=
  let t := normalize s
  let t := subAll bracketAt t
  let t := subAll (fun u => (parenAt normKeywords u).map Prod.fst) t
  let t := t.map (fun c => if isWordChar c || isPySpace c then c else ' ')
  pyCollapse t

/-- Separator words of the artist-splitting pattern, in the order the Python
regex engine tries the alternatives (optional-dot forms expanded greedily). -/
def sepWords : List Str :=
  [str "and", str "vs.", str "vs", str "versus", str "featuring",
   str "feat.", str "feat", str "ft.", str "ft", str "with", str "w/", str "x"]

/-- Matcher for one artist separator at the current position: either optional
whitespace, one of comma ampersand plus, optional whitespace; or mandatory
whitespace, a separator word, mandatory whitespace (case-insensitive). -/
def sepAt (s : Str) : Option Nat :=
  let ws1 := s.takeWhile isPySpace
  let r1 := s.drop ws1.length
  match r1.head? with
  | some c =>
    if c = ',' || c = '&' || c = '+' then
      let ws2 := (r1.drop 1).takeWhile isPySpace
      some (ws1.length + 1 + ws2.length)
    else if ws1.isEmpty then none
    else
      match sepWords.find? (fun w =>
        lowerS (r1.take w.length) == w &&
        ((r1.drop w.length).head?.elim false isPySpace)) with
      | some w =>
        let ws3 := (r1.drop w.length).takeWhile isPySpace
        some (ws1.length + w.length + ws3.length)
      | none => none
  | none => none

/-- Fueled worker for the separator split; the accumulator holds the current
token reversed. -/
def splitSepsF : Nat → Str → Str → List Str
  | _, acc, [] => [acc.reverse]
  | 0, acc, s => [acc.reverse ++ s]
  | fuel+1, acc, c :: cs =>
    match sepAt (c :: cs) with
    | some (n+1) => acc.reverse :: splitSepsF fuel [] (cs.drop n)
    | _ => splitSepsF fuel (c :: acc) cs

/-- Model of re.split on the artist-separator pattern. -/
def splitSeps (s : Str) : List Str := splitSepsF s.length [] s

/-- TrackNormalizer.extract_artists: lowercase, split on separators, strip
every piece and keep the non-empty ones. -/
def extractArtists (artistString : Str) : List Str :=
  ((splitSeps (artistString.map lowerC)).map pStrip).filter (fun a => !a.isEmpty)

/-- TrackNormalizer.extract_remix_info: strip the parenthesised remix tag and
return the cleaned title together with the raw tag when one is present. -/
def extractRemixInfo (title : Str) : Str × Option Str :=
  match searchGroup (parenAt normKeywords) title with
  | some g =>
    (pStrip (subAll (fun u => (parenAt normKeywords u).map Prod.fst) title), some g)
  | none => (title, none)

/-! Scorer: embedding of TrackScorer (scorer.py). -/

/-- Character class next to the hyphen in REMASTER_PATTERN. The source file
contains three mojibake characters there (the UTF-8 bytes of an en dash read
in a wrong encoding), so the class holds the hyphen and those three
characters, reproduced faithfully. -/
def remDashClass (c : Char) : Bool := c = '-' || c = 'â' || c = '€' || c = '“'

/-- First alternative of REMASTER_PATTERN: optional whitespace, a dash-class
character, optional whitespace, the word remaster with optional ed, then
optional whitespace, digits and whitespace, anchored at the end of the
string (Python's dollar, which the greedy whitespace star reaches also when
the string ends in a newline). Case-insensitive literals are matched by
ASCII lowercasing. -/
def remasterAlt1 (s : Str) : Option Nat :=
  let ws1 := s.takeWhile isPySpace
  match (s.drop ws1.length).head? with
  | some c =>
    if remDashClass c then
      let rest1 := s.drop (ws1.length + 1)
      let ws2 := rest1.takeWhile isPySpace
      let r1 := rest1.drop ws2.length
      if lowerS (r1.take 8) == str "remaster" then
        let r2 := r1.drop 8
        let ed := if lowerS (r2.take 2) == str "ed" then 2 else 0
        let r3 := r2.drop ed
        let ws3 := r3.takeWhile isPySpace
        let r4 := r3.drop ws3.length
        let ds := r4.takeWhile isPyDigit
        let r5 := r4.drop ds.length
        let ws4 := r5.takeWhile isPySpace
        if (r5.drop ws4.length).isEmpty then
          some (ws1.length + 1 + ws2.length + 8 + ed + ws3.length + ds.length + ws4.length)
        else none
      else none
    else none
  | none => none

/-- Second alternative of REMASTER_PATTERN: a parenthesised remaster marker
with optional ed, whitespace and digits. -/
def remasterAlt2 : Str → Option Nat
  | '(' :: rest =>
    if lowerS (rest.take 8) == str "remaster" then
      let r2 := rest.drop 8
      let ed := if lowerS (r2.take 2) == str "ed" then 2 else 0
      let r3 := r2.drop ed
      let ws := r3.takeWhile isPySpace
      let r4 := r3.drop ws.length
      let ds := r4.takeWhile isPyDigit
      if (r4.drop ds.length).head? == some ')' then
        some (1 + 8 + ed + ws.length + ds.length + 1)
      else none
    else none
  | _ => none

/-- REMASTER_PATTERN as a matcher: the first alternative is preferred. -/
def remasterAt (s : Str) : Option Nat :=
  (remasterAlt1 s).orElse fun _ => remasterAlt2 s

/-- Model of REMASTER_PATTERN.sub with empty replacement. -/
def subRemaster (s : Str) : Str := subAll remasterAt s

/-- Matcher for the dash-form remix tag REMIX_DASH_PATTERN: mandatory
whitespace, a hyphen, mandatory whitespace, then a capture group that must
contain one of the keywords; the group runs to the end of the string, or to
just before one final newline (the lazy and greedy dots do not cross a
newline, and the dollar accepts a position before a final newline). -/
def dashAt (s : Str) : Option (Nat × Str) :=
  let ws1 := s.takeWhile isPySpace
  if ws1.isEmpty then none
  else
    match s.drop ws1.length with
    | '-' :: rest2 =>
      let ws2 := rest2.takeWhile isPySpace
      if ws2.isEmpty then none
      else
        let r := rest2.drop ws2.length
        let line := r.takeWhile (fun c => c != '\n')
        if hasKeyword scorerKeywords line then
          if r == line then
            some (ws1.length + 1 + ws2.length + r.length, r)
          else if r == line ++ ['\n'] then
            some (ws1.length + 1 + ws2.length + line.length, line)
          else none
        else none
    | _ => none

/-- Model of REMIX_PAREN_PATTERN.sub with empty replacement, with the
Scorer's keyword list. -/
def subParen (s : Str) : Str :=
  subAll (fun u => (parenAt scorerKeywords u).map Prod.fst) s

/-- Model of REMIX_DASH_PATTERN.sub with empty replacement. -/
def subDash (s : Str) : Str := subAll (fun u => (dashAt u).map Prod.fst) s

/-- TrackScorer._extract_remix: strip remaster annotations and whitespace,
then return the lowercased stripped capture of the parenthesis pattern, or
else of the dash pattern. -/
def extractRemix (title : Str) : Option Str :=
  let t := pStrip (subRemaster title)
  match searchGroup (parenAt scorerKeywords) t with
  | some g => some (pStrip (lowerS g))
  | none =>
    match searchGroup dashAt t with
    | some g => some (pStrip (lowerS g))
    | none => none

/-- TrackScorer._remove_remix: drop remaster annotations, parenthesised
remix tags and dash-form remix tags, then strip whitespace. -/
def removeRemix (title : Str) : Str :=
  pStrip (subDash (subParen (subRemaster title)))

/-- Fueled longest-common-subsequence worker; the fuel bounds the sum of the
lengths. -/
def lcsF : Nat → Str → Str → Nat
  | 0, _, _ => 0
  | _+1, [], _ => 0
  | _+1, _ :: _, [] => 0
  | fuel+1, a :: as, b :: bs =>
    if a = b then lcsF fuel as bs + 1
    else max (lcsF fuel (a :: as) bs) (lcsF fuel as (b :: bs))

/-- Longest common subsequence length of two strings. -/
def lcs (a b : Str) : Nat := lcsF (a.length + b.length) a b

/-- Model of rapidfuzz fuzz.ratio (an external library): the indel-normalized
similarity on a 0 to 100 scale, which equals 100·2·lcs(a,b)/(|a|+|b|), and
100 when both strings are empty. -/
def ratioQ (a b : Str) : ℚ :=
  if a.length + b.length = 0 then 100
  else 100 * (2 * (lcs a b : ℚ)) / ((a.length : ℚ) + (b.length : ℚ))

/-- Lexicographic comparison of strings by character code. -/
def strLeF : Str → Str → Bool
  | [], _ => true
  | _ :: _, [] => false
  | a :: as, b :: bs => if a = b then strLeF as bs else decide (a < b)

/-- Insert into a lexicographically sorted list of strings. -/
def insSortedInsert (x : Str) : List Str → List Str
  | [] => [x]
  | y :: ys => if strLeF x y then x :: y :: ys else y :: insSortedInsert x ys

/-- Insertion sort of a list of strings. -/
def sortStrs : List Str → List Str
  | [] => []
  | x :: xs => insSortedInsert x (sortStrs xs)

/-- Remove adjacent duplicates of a sorted list. -/
def dedupSorted : List Str → List Str
  | [] => []
  | [x] => [x]
  | x :: y :: ys =>
    if x == y then dedupSorted (y :: ys) else x :: dedupSorted (y :: ys)

/-- Fueled whitespace tokenizer. -/
def wordsF : Nat → Str → List Str
  | _, [] => []
  | 0, _ => []
  | fuel+1, c :: cs =>
    if isPySpace c then wordsF fuel cs
    else
      let w := cs.takeWhile (fun d => !isPySpace d)
      (c :: w) :: wordsF fuel (cs.drop w.length)

/-- Split a string into whitespace-separated words. -/
def pyWords (s : Str) : List Str := wordsF s.length s

/-- Join words with single spaces. -/
def joinSpace : List Str → Str
  | [] => []
  | [w] => w
  | w :: ws => w ++ ' ' :: joinSpace ws

/-- Model of rapidfuzz fuzz.token_set_ratio (an external library): compare
the joined sorted unique token intersection and differences of the two
strings with fuzz.ratio and take the best of the three comparisons. -/
def tokenSetRatio (a b : Str) : ℚ :=
  let ta := dedupSorted (sortStrs (pyWords a))
  let tb := dedupSorted (sortStrs (pyWords b))
  let sect := ta.filter (fun w => tb.contains w)
  let da := ta.filter (fun w => !tb.contains w)
  let db := tb.filter (fun w => !ta.contains w)
  let s0 := joinSpace sect
  let s1 := joinSpace (sect ++ da)
  let s2 := joinSpace (sect ++ db)
  max (ratioQ s0 s1) (max (ratioQ s0 s2) (ratioQ s1 s2))

/-- Model of rapidfuzz fuzz.partial_ratio (an external library): the best
fuzz.ratio between the shorter string and any window of the longer string of
the shorter string's length. -/
def partialRatio (a b : Str) : ℚ :=
  let p := if a.length ≤ b.length then (a, b) else (b, a)
  let cands := (List.range (p.2.length - p.1.length + 1)).map
    (fun i => (p.2.drop i).take p.1.length)
  (cands.map (fun w => ratioQ p.1 w)).foldl max 0

/-- Python truthiness of an optional string: present and non-empty. -/
def strOptTruthy : Option Str → Bool
  | none => false
  | some s => !s.isEmpty

/-- TrackScorer._score_remix, with Python truthiness on the optional tags. -/
def scoreRemix (m s : Option Str) : ℚ :=
  if !strOptTruthy m && !strOptTruthy s then 100
  else if (strOptTruthy m && !strOptTruthy s) || (!strOptTruthy m && strOptTruthy s) then 0
  else
    let mn := normalize (m.getD [])
    let sn := normalize (s.getD [])
    let sc := max (tokenSetRatio mn sn) (partialRatio mn sn)
    if 75 ≤ sc then 100 else if 60 ≤ sc then 70 else 0

/-- Remix component used in score_match's aggregate: the _score_remix value
followed by the hard zero applied at the call site when exactly one side has
a (truthy) tag. -/
def remixScoreFinal (m s : Option Str) : ℚ :=
  if strOptTruthy m && !strOptTruthy s then 0
  else if !strOptTruthy m && strOptTruthy s then 0
  else scoreRemix m s

/-- Best fuzz.ratio of one source artist against the normalized candidate
artists, folded from 0 as in the source loop. -/
def bestArtistMatch (a : Str) (spNorm : List Str) : ℚ :=
  spNorm.foldl (fun acc b => max acc (ratioQ a b)) 0

/-- TrackScorer._score_artist_strict: every extracted source artist must have
a candidate artist matching at least 85. -/
def scoreArtistStrict (mdbArtist : Str) (spAllArtists : List Str) : ℚ :=
  let mdbArtists := extractArtists mdbArtist
  let spNorm := spAllArtists.map normalize
  if mdbArtists.isEmpty then 0
  else
    let matched :=
      (mdbArtists.filter (fun a => decide (85 ≤ bestArtistMatch a spNorm))).length
    if matched = mdbArtists.length then 100
    else if 0 < matched then ((matched : ℚ) / (mdbArtists.length : ℚ)) * 60
    else 0

/-- TrackScorer._score_title_strict: equality gives 100, otherwise the
character ratio, scaled by 0.8 when the lengths differ by more than 10. -/
def scoreTitleStrict (a b : Str) : ℚ :=
  if a == b then 100
  else
    let ratio := ratioQ a b
    if 10 < max a.length b.length - min a.length b.length then ratio * (8/10)
    else ratio

/-- MixTrack (mixesdb/models.py). -/
structure MixTrack where
  position : Int
  artist : Str
  title : Str
  label : Option Str := none
  remix : Option Str := none
deriving DecidableEq

/-- SpotifyTrack (spotify/models.py). -/
structure SpotifyTrack where
  uri : Str := []
  id : Str := []
  name : Str
  artist : Str := []
  artists : List Str
  album : Str := []
  durationMs : Int := 0
  popularity : Int := 0
  previewUrl : Option Str := none
  externalUrl : Option Str := none
deriving DecidableEq

/-- ScorerWeights (scorer.py): configurable display weights, never consulted
by score_match. -/
structure ScorerWeights where
  artist : ℚ := 4/10
  title : ℚ := 6/10
deriving DecidableEq

/-- TrackScorer.score_match: extract remix tags, score artist, base title and
remix, hard-zero the remix component on a one-sided tag, and combine with
the fixed weights 0.30, 0.40, 0.30. The scorer's weights object is carried
but, as in the source, never consulted. -/
def scoreMatch (_w : ScorerWeights) (mdb : MixTrack) (sp : SpotifyTrack) : ℚ :=
  scoreArtistStrict (normalize mdb.artist) sp.artists * (30/100) +
  scoreTitleStrict (normalize (removeRemix mdb.title)) (normalize (removeRemix sp.name)) * (40/100) +
  remixScoreFinal (extractRemix mdb.title) (extractRemix sp.name) * (30/100)

/-! Strategy cascade: embedding of strategy.py. -/

/-- MatchConfidence (strategy.py). -/
inductive MatchConfidence where
  | EXACT
  | HIGH
  | MEDIUM
  | LOW
  | NO_MATCH
deriving DecidableEq

/-- MatchConfidence.from_score: the fixed threshold classification. -/
def fromScore (s : ℚ) : MatchConfidence :=
  if 95 ≤ s then .EXACT
  else if 90 ≤ s then .HIGH
  else if 80 ≤ s then .MEDIUM
  else .LOW

/-- Numeric rank of a confidence tier: a higher rank is a better tier, and
NO_MATCH is the worst. -/
def confidenceRank : MatchConfidence → Nat
  | .NO_MATCH => 0
  | .LOW => 1
  | .MEDIUM => 2
  | .HIGH => 3
  | .EXACT => 4

/-- MatchResult (strategy.py). -/
structure MatchResult where
  mixesdbTrack : MixTrack
  spotifyTrack : Option SpotifyTrack
  confidence : MatchConfidence
  score : ℚ
  searchStrategy : Str
  alternatives : List SpotifyTrack := []
deriving DecidableEq

/-- MatchResult.matched: a Spotify track is attached and the tier is not
NO_MATCH. -/
def MatchResult.matched (r : MatchResult) : Bool :=
  r.spotifyTrack.isSome && r.confidence != .NO_MATCH

/-- MatcherConfig (config.py) with its defaults. -/
structure MatcherConfig where
  minScore : ℚ := 90
  includeLowConfidence : Bool := false
  artistWeight : ℚ := 4/10
  titleWeight : ℚ := 6/10
deriving DecidableEq

/-- The Spotify search collaborator, modelled as explicit query functions. -/
structure SpotifyClient where
  searchTrackExact : Str → Str → Nat → List SpotifyTrack
  searchTrack : Str → Nat → List SpotifyTrack

/-- Record of one search call issued to the collaborator. -/
inductive QueryEvent where
  | exact (artist title : Str) (limit : Nat)
  | free (query : Str) (limit : Nat)
deriving DecidableEq

/-- Insert a scored candidate into a list sorted by score descending, after
every element of strictly greater score (stable descending insertion). -/
def insertDesc (p : SpotifyTrack × ℚ) :
    List (SpotifyTrack × ℚ) → List (SpotifyTrack × ℚ)
  | [] => [p]
  | q :: qs => if p.2 < q.2 then q :: insertDesc p qs else p :: q :: qs

/-- Stable sort by score descending, matching the Python list sort with a
score key and reverse set. -/
def sortDesc : List (SpotifyTrack × ℚ) → List (SpotifyTrack × ℚ)
  | [] => []
  | p :: ps => insertDesc p (sortDesc ps)

/-- TrackMatcher._no_match. -/
def noMatch (track : MixTrack) (strategyName : Str) : MatchResult :=
  ⟨track, none, .NO_MATCH, 0, strategyName, []⟩

/-- Default TrackScorer weights, as built by the TrackMatcher constructor. -/
def defaultWeights : ScorerWeights := {}

/-- TrackMatcher._evaluate_results: score and sort the candidates, report
NO_MATCH below the threshold unless low confidence is included, otherwise
report the top candidate. -/
def evaluateResults (cfg : MatcherConfig) (track : MixTrack)
    (results : List SpotifyTrack) (strategyName : Str) : MatchResult :=
  if results.isEmpty then noMatch track strategyName
  else
    match sortDesc (results.map (fun r => (r, scoreMatch defaultWeights track r))) with
    | [] => noMatch track strategyName
    | (bt, bs) :: rest =>
      if bs < cfg.minScore ∧ cfg.includeLowConfidence = false then
        ⟨track, none, .NO_MATCH, bs, strategyName,
          (((bt, bs) :: rest).take 5).map Prod.fst⟩
      else
        ⟨track, some bt, fromScore bs, bs, strategyName,
          (rest.take 4).map Prod.fst⟩

/-- TrackMatcher._exact_search, paired with the query event it issues. -/
def exactSearch (cl : SpotifyClient) (cfg : MatcherConfig) (track : MixTrack)
    (strategyName : Str) : MatchResult × List QueryEvent :=
  (evaluateResults cfg track (cl.searchTrackExact track.artist track.title 5) strategyName,
   [.exact track.artist track.title 5])

/-- TrackMatcher._normalized_search, paired with its query event. -/
def normalizedSearch (cl : SpotifyClient) (cfg : MatcherConfig) (track : MixTrack)
    (strategyName : Str) : MatchResult × List QueryEvent :=
  let query := normalizeForSearch track.artist ++ ' ' :: normalizeForSearch track.title
  (evaluateResults cfg track (cl.searchTrack query 10) strategyName,
   [.free query 10])

/-- TrackMatcher._artist_title_search, paired with its query event: the first
extracted artist (or the raw artist string) as a field constraint plus the
remix-stripped search-normalized title. -/
def artistTitleSearch (cl : SpotifyClient) (cfg : MatcherConfig) (track : MixTrack)
    (strategyName : Str) : MatchResult × List QueryEvent :=
  let primary := (extractArtists track.artist).headD track.artist
  let clean := normalizeForSearch (extractRemixInfo track.title).1
  let query := str "artist:\"" ++ primary ++ str "\" " ++ clean
  (evaluateResults cfg track (cl.searchTrack query 10) strategyName,
   [.free query 10])

/-- Local re-ranking of the title_only strategy: when the result list is not
empty, score every candidate, sort by score descending and keep the top 10. -/
def rerankTop10 (track : MixTrack) (results : List SpotifyTrack) : List SpotifyTrack :=
  if results.isEmpty then results
  else
    ((sortDesc (results.map (fun r => (r, scoreMatch defaultWeights track r)))).take 10).map
      Prod.fst

/-- TrackMatcher._title_only_search, paired with its query event: the track
field holds the remix-stripped title exactly as extract_remix_info returns
it, the limit is 20, and the returns are re-ranked to the top 10. -/
def titleOnlySearch (cl : SpotifyClient) (cfg : MatcherConfig) (track : MixTrack)
    (strategyName : Str) : MatchResult × List QueryEvent :=
  let query := str "track:\"" ++ (extractRemixInfo track.title).1 ++ str "\""
  (evaluateResults cfg track (rerankTop10 track (cl.searchTrack query 20)) strategyName,
   [.free query 20])

/-- One pass of the find_match loop over the remaining strategies, carrying
the best result seen so far and collecting the issued query events. -/
def findMatchGo (track : MixTrack) :
    Option MatchResult →
    List (Str × (MixTrack → Str → MatchResult × List QueryEvent)) →
    MatchResult × List QueryEvent
  | best, [] => (best.getD (noMatch track (str "none")), [])
  | best, (name, f) :: rest =>
    let re := f track name
    if re.1.confidence = .EXACT ∨ re.1.confidence = .HIGH then re
    else
      let best2 := match best with
        | none => some re.1
        | some b => if b.score < re.1.score then some re.1 else some b
      let tail := findMatchGo track best2 rest
      (tail.1, re.2 ++ tail.2)

/-- The ordered strategy list of find_match. -/
def strategyList (cl : SpotifyClient) (cfg : MatcherConfig) :
    List (Str × (MixTrack → Str → MatchResult × List QueryEvent)) :=
  [(str "exact", exactSearch cl cfg),
   (str "normalized", normalizedSearch cl cfg),
   (str "artist_title", artistTitleSearch cl cfg),
   (str "title_only", titleOnlySearch cl cfg)]

/-- TrackMatcher.find_match, paired with the trace of issued search calls. -/
def findMatch (cl : SpotifyClient) (cfg : MatcherConfig) (track : MixTrack) :
    MatchResult × List QueryEvent :=
  findMatchGo track none (strategyList cl cfg)

/-! Auxiliary definitions used by the theorems below. -/

/-- A string is reduced when every stage of normalize leaves it unchanged:
lowercasing, ASCII folding, the replacement table, the removal patterns and
whitespace collapsing. -/
def isReduced (y : Str) : Bool :=
  (y.map lowerC == y) && (y.filterMap asciiFold == y) &&
  (applyReplacements y == y) && (applyRemovals y == y) && (pyCollapse y == y)

/-- Test fixture: a source track with artist a and title b. -/
def tA : MixTrack := ⟨0, str "a", str "b", none, none⟩

/-- Test fixture: a candidate matching tA exactly. -/
def cA : SpotifyTrack := { name := str "b", artists := [str "a"] }

/-- Test fixture: a candidate whose title only partly matches tA. -/
def cB : SpotifyTrack := { name := str "bq", artists := [str "a"] }

/-- Test fixture: a client whose exact search returns the perfect candidate
and whose free search returns nothing. -/
def clPerfect : SpotifyClient := ⟨fun _ _ _ => [cA], fun _ _ => []⟩

/-- Test fixture: a client that never returns results. -/
def clEmpty : SpotifyClient := ⟨fun _ _ _ => [], fun _ _ => []⟩

/-- Test fixture: the Opus source track of the specification example. -/
def tOpus : MixTrack := ⟨0, str "x", str "Opus (Claptone Remix)", none, none⟩

/-- Test fixture: the untagged Opus candidate of the specification example. -/
def cOpus : SpotifyTrack := { name := str "Opus", artists := [str "x"] }

/-- Test fixture: a track whose title carries punctuation that
normalize_for_search would strip. -/
def tHello : MixTrack := ⟨0, str "a", str "Hello!", none, none⟩

end Mixes

namespace MixesChecks

open Mixes

example : pStrip (str "  a b  ") = str "a b" := by decide
example : normalize (str "A  'B'") = str "a b" := by decide
example : normalize (str "X (Original Mix)") = str "x" := by decide
example : normalize (str "a '&' b") = str "a & b" := by decide
example : normalize (str "a & b") = str "a and b" := by decide
example : extractArtists (str "Daft Punk & Pharrell") = [str "daft punk", str "pharrell"] := by decide
example : extractArtists (str "a vs. b") = [str "a", str "b"] := by decide
example : extractArtists (str "a vs.b") = [str "a vs.b"] := by decide
example : extractArtists (str "A, B + C x D") = [str "a", str "b", str "c", str "d"] := by decide
example : normalizeForSearch (str "Hello! [Label] (Club Remix)") = str "hello" := by decide
example : extractRemixInfo (str "Opus (Claptone Remix)") = (str "Opus", some (str "Claptone Remix")) := by decide
example : extractRemixInfo (str "Hello!") = (str "Hello!", none) := by decide

example : extractRemix (str "Strobe (Original Mix)") = some (str "original mix") := by decide
example : extractRemix (str "Strobe") = none := by decide
example : extractRemix (str "Opus (Claptone Remix)") = some (str "claptone remix") := by decide
example : extractRemix (str "Track - Artist Remix") = some (str "artist remix") := by decide
example : extractRemix (str "Song - Remastered 2009") = none := by decide
example : extractRemix (str "Song (Remastered)") = none := by decide
example : removeRemix (str "Opus (Claptone Remix)") = str "Opus" := by decide
example : removeRemix (str "Track - Artist Remix") = str "Track" := by decide
example : removeRemix (str "Song - Remastered 2009") = str "Song" := by decide
example : lcs (str "pharrell") (str "pharrell williams") = 8 := by decide
example : subRemaster (str "A - Remaster 2011 (Remastered 3)") = str "A - Remaster 2011 " := by decide
example : subRemaster (str "A - Remastered 2011") = str "A" := by decide
example : extractRemix (str "a - some remix\nmore") = none := by decide
example : extractRemix (str "a - some remix\n") = some (str "some remix") := by decide
example : subRemaster (str "B - Remaster \n") = str "B" := by decide
example : extractRemix (str "A (x(remix))") = some (str "x(remix") := by decide

end MixesChecks

namespace Mixes

/-- The fueled lcs worker is bounded by both string lengths. -/
theorem lcsF_le : ∀ (fuel : Nat) (a b : Str),
    lcsF fuel a b ≤ a.length ∧ lcsF fuel a b ≤ b.length := by
  intro fuel
  induction fuel with
  | zero => intro a b; simp [lcsF]
  | succ f ih =>
    intro a b
    match a, b with
    | [], b => simp [lcsF]
    | x :: xs, [] => simp [lcsF]
    | x :: xs, y :: ys =>
      simp only [lcsF, List.length_cons]
      split
      · have h := ih xs ys
        omega
      · have h1 := ih (x :: xs) ys
        have h2 := ih xs (y :: ys)
        simp only [List.length_cons] at h1 h2
        constructor
        · exact max_le (by omega) (by omega)
        · exact max_le (by omega) (by omega)

/-- Twice the lcs is bounded by the sum of the lengths. -/
theorem two_lcs_le (a b : Str) : 2 * lcs a b ≤ a.length + b.length := by
  have h := lcsF_le (a.length + b.length) a b
  unfold lcs
  omega

/-- The character ratio is nonnegative. -/
theorem ratioQ_nonneg (a b : Str) : 0 ≤ ratioQ a b := by
  unfold ratioQ
  split
  · norm_num
  · positivity

/-- The character ratio is at most 100. -/
theorem ratioQ_le_100 (a b : Str) : ratioQ a b ≤ 100 := by
  unfold ratioQ
  split
  · norm_num
  · rename_i h
    have hpos : (0:ℚ) < (a.length : ℚ) + (b.length : ℚ) := by
      have h0 : 0 < a.length + b.length := Nat.pos_of_ne_zero h
      exact_mod_cast h0
    rw [div_le_iff₀ hpos]
    have hl : ((2 * lcs a b : Nat) : ℚ) ≤ ((a.length + b.length : Nat) : ℚ) := by
      exact_mod_cast two_lcs_le a b
    push_cast at hl
    nlinarith [hl]

/-- The strict title score is nonnegative. -/
theorem scoreTitleStrict_nonneg (a b : Str) : 0 ≤ scoreTitleStrict a b := by
  unfold scoreTitleStrict
  split
  · norm_num
  · split
    · exact mul_nonneg (ratioQ_nonneg a b) (by norm_num)
    · exact ratioQ_nonneg a b

/-- The strict title score is at most 100. -/
theorem scoreTitleStrict_le_100 (a b : Str) : scoreTitleStrict a b ≤ 100 := by
  unfold scoreTitleStrict
  split
  · norm_num
  · split
    · nlinarith [ratioQ_le_100 a b, ratioQ_nonneg a b]
    · exact ratioQ_le_100 a b

/-- The strict artist score is nonnegative. -/
theorem scoreArtistStrict_nonneg (a : Str) (sp : List Str) :
    0 ≤ scoreArtistStrict a sp := by
  simp only [scoreArtistStrict]
  split
  · norm_num
  · split
    · norm_num
    · split
      · positivity
      · norm_num

/-- The strict artist score is at most 100. -/
theorem scoreArtistStrict_le_100 (a : Str) (sp : List Str) :
    scoreArtistStrict a sp ≤ 100 := by
  simp only [scoreArtistStrict]
  split
  · norm_num
  · rename_i hne
    split
    · norm_num
    · split
      · rename_i hmc hpos
        have hlen : 0 < (extractArtists a).length := by
          cases h : extractArtists a with
          | nil => rw [h] at hne; simp at hne
          | cons x xs => simp [h]
        have hle : ((extractArtists a).filter
            (fun x => decide (85 ≤ bestArtistMatch x (sp.map normalize)))).length ≤
            (extractArtists a).length := List.length_filter_le _ _
        have hq : (((extractArtists a).filter
            (fun x => decide (85 ≤ bestArtistMatch x (sp.map normalize)))).length : ℚ) /
            ((extractArtists a).length : ℚ) ≤ 1 := by
          rw [div_le_one (by exact_mod_cast hlen)]
          exact_mod_cast hle
        nlinarith [hq, hlen]
      · norm_num

/-- The remix sub-score takes only the values 0, 70 and 100. -/
theorem scoreRemix_mem (m s : Option Str) :
    scoreRemix m s = 0 ∨ scoreRemix m s = 70 ∨ scoreRemix m s = 100 := by
  simp only [scoreRemix]
  split
  · right; right; rfl
  · split
    · left; rfl
    · split
      · right; right; rfl
      · split
        · right; left; rfl
        · left; rfl

/-- The final remix component takes only the values 0, 70 and 100. -/
theorem remixScoreFinal_mem (m s : Option Str) :
    remixScoreFinal m s = 0 ∨ remixScoreFinal m s = 70 ∨ remixScoreFinal m s = 100 := by
  unfold remixScoreFinal
  split_ifs
  · simp
  · simp
  · exact scoreRemix_mem m s

/-- The final remix component is nonnegative. -/
theorem remixScoreFinal_nonneg (m s : Option Str) : 0 ≤ remixScoreFinal m s := by
  rcases remixScoreFinal_mem m s with h | h | h <;> rw [h] <;> norm_num

/-- The final remix component is at most 100. -/
theorem remixScoreFinal_le_100 (m s : Option Str) : remixScoreFinal m s ≤ 100 := by
  rcases remixScoreFinal_mem m s with h | h | h <;> rw [h] <;> norm_num

end Mixes

namespace Mixes

/-- Members of a Boolean prefix are members of the larger list. -/
theorem isPrefixOf_mem : ∀ (n h : Str), n.isPrefixOf h = true → ∀ c ∈ n, c ∈ h := by
  intro n
  induction n with
  | nil => simp
  | cons a as ih =>
    intro h hp c hcm
    cases h with
    | nil => simp [List.isPrefixOf] at hp
    | cons b bs =>
      simp only [List.isPrefixOf, Bool.and_eq_true, beq_iff_eq] at hp
      obtain ⟨hab, hrest⟩ := hp
      rcases List.mem_cons.mp hcm with h1 | h2
      · subst h1; subst hab; exact List.mem_cons_self _ _
      · exact List.mem_cons_of_mem _ (ih bs hrest c h2)

/-- Members of an occurring needle are members of the haystack. -/
theorem containsSeq_mem : ∀ (n h : Str), containsSeq n h = true → ∀ c ∈ n, c ∈ h := by
  intro n h
  induction h with
  | nil =>
    intro hc c hm
    simp only [containsSeq, List.isEmpty_iff] at hc
    subst hc; simp at hm
  | cons b bs ih =>
    intro hc c hm
    simp only [containsSeq, Bool.or_eq_true] at hc
    rcases hc with h1 | h2
    · exact isPrefixOf_mem n _ h1 c hm
    · exact List.mem_cons_of_mem _ (ih h2 c hm)

/-- A string holding a non-whitespace character does not strip to empty. -/
theorem pStrip_ne_nil (s : Str) (c : Char) (hc : c ∈ s) (hns : isPySpace c = false) :
    pStrip s ≠ [] := by
  intro h0
  unfold pStrip at h0
  rw [List.reverse_eq_nil_iff, List.dropWhile_eq_nil_iff] at h0
  have hcd : c ∈ s.dropWhile isPySpace := by
    have hsplit := List.takeWhile_append_dropWhile (p := isPySpace) (l := s)
    rw [← hsplit] at hc
    rcases List.mem_append.mp hc with h1 | h2
    · have := List.mem_takeWhile_imp h1
      rw [hns] at this; exact absurd this (by simp)
    · exact h2
  have := h0 c (List.mem_reverse.mpr hcd)
  rw [hns] at this; exact absurd this (by simp)

/-- Every scorer keyword holds a non-whitespace character. -/
theorem scorerKeywords_nospace :
    ∀ k ∈ scorerKeywords, ∃ c ∈ k, isPySpace c = false := by decide

/-- A string in which a scorer keyword occurs does not strip to empty after
lowercasing. -/
theorem hasKeyword_strip (g : Str) (h : hasKeyword scorerKeywords g = true) :
    pStrip (lowerS g) ≠ [] := by
  unfold hasKeyword at h
  rw [List.any_eq_true] at h
  obtain ⟨k, hk, hcont⟩ := h
  obtain ⟨c, hck, hcs⟩ := scorerKeywords_nospace k hk
  exact pStrip_ne_nil _ c (containsSeq_mem _ _ hcont c hck) hcs

/-- A property of capture groups transfers from the matcher to the search. -/
theorem searchGroupF_prop {P : Str → Prop} (m : Str → Option (Nat × Str))
    (hm : ∀ u n g, m u = some (n, g) → P g) :
    ∀ fuel s g, searchGroupF m fuel s = some g → P g := by
  intro fuel
  induction fuel with
  | zero => intro s g h; cases s <;> simp [searchGroupF] at h
  | succ f ih =>
    intro s g h
    cases s with
    | nil => simp [searchGroupF] at h
    | cons c cs =>
      simp only [searchGroupF] at h
      cases hm2 : m (c :: cs) with
      | some p =>
        rw [hm2] at h
        obtain ⟨pn, pg⟩ := p
        simp only [Option.some.injEq] at h
        subst h
        exact hm _ _ _ hm2
      | none =>
        rw [hm2] at h
        exact ih _ _ h

/-- The capture group of the parenthesis pattern contains a keyword. -/
theorem parenAt_keyword (kws : List Str) (u : Str) (n : Nat) (g : Str)
    (h : parenAt kws u = some (n, g)) : hasKeyword kws g = true := by
  rw [parenAt.eq_def] at h
  split at h
  · simp only [Bool.and_eq_true] at h
    split at h
    · rename_i hcond
      simp only [Option.some.injEq, Prod.mk.injEq] at h
      obtain ⟨-, hg⟩ := h
      subst hg
      exact hcond.2
    · exact absurd h (by simp)
  · exact absurd h (by simp)

/-- The capture group of the dash pattern contains a keyword. -/
theorem dashAt_keyword (u : Str) (n : Nat) (g : Str)
    (h : dashAt u = some (n, g)) : hasKeyword scorerKeywords g = true := by
  simp only [dashAt] at h
  split at h
  · exact absurd h (by simp)
  · split at h
    · split at h
      · exact absurd h (by simp)
      · split at h
        · rename_i hkw
          split at h
          · rename_i hrl
            simp only [Option.some.injEq, Prod.mk.injEq] at h
            obtain ⟨-, hg⟩ := h
            subst hg
            rw [beq_iff_eq.mp hrl]
            exact hkw
          · split at h
            · simp only [Option.some.injEq, Prod.mk.injEq] at h
              obtain ⟨-, hg⟩ := h
              subst hg
              exact hkw
            · exact absurd h (by simp)
        · exact absurd h (by simp)
    · exact absurd h (by simp)

/-- An extracted remix tag is never the empty string. -/
theorem extractRemix_ne_nil (t g : Str) (h : extractRemix t = some g) : g ≠ [] := by
  simp only [extractRemix] at h
  split at h
  · rename_i g0 hp
    simp only [Option.some.injEq] at h
    subst h
    have hkw : hasKeyword scorerKeywords g0 = true := by
      rw [searchGroup] at hp
      exact searchGroupF_prop _ (fun u n g hg => parenAt_keyword scorerKeywords u n g hg) _ _ _ hp
    exact hasKeyword_strip g0 hkw
  · split at h
    · rename_i g0 hd
      simp only [Option.some.injEq] at h
      subst h
      have hkw : hasKeyword scorerKeywords g0 = true := by
        rw [searchGroup] at hd
        exact searchGroupF_prop _ (fun u n g hg => dashAt_keyword u n g hg) _ _ _ hd
      exact hasKeyword_strip g0 hkw
    · exact absurd h (by simp)

end Mixes

namespace Mixes

/-- Membership in a descending insertion. -/
theorem mem_insertDesc (p q : SpotifyTrack × ℚ) :
    ∀ l, q ∈ insertDesc p l ↔ q = p ∨ q ∈ l := by
  intro l
  induction l with
  | nil => simp [insertDesc]
  | cons x xs ih =>
    simp only [insertDesc]
    split
    · simp only [List.mem_cons, ih]
      tauto
    · simp [List.mem_cons]

/-- Descending insertion is a permutation of consing. -/
theorem insertDesc_perm (p : SpotifyTrack × ℚ) :
    ∀ l, List.Perm (insertDesc p l) (p :: l) := by
  intro l
  induction l with
  | nil => simp [insertDesc]
  | cons x xs ih =>
    simp only [insertDesc]
    split
    · exact (List.Perm.cons x ih).trans (List.Perm.swap p x xs)
    · exact List.Perm.refl _

/-- The descending sort is a permutation of its input. -/
theorem sortDesc_perm : ∀ l, List.Perm (sortDesc l) l := by
  intro l
  induction l with
  | nil => simp [sortDesc]
  | cons x xs ih =>
    exact (insertDesc_perm x (sortDesc xs)).trans (List.Perm.cons x ih)

/-- Descending insertion preserves the descending pairwise order. -/
theorem insertDesc_pairwise (p : SpotifyTrack × ℚ) :
    ∀ l, List.Pairwise (fun x y => y.2 ≤ x.2) l →
      List.Pairwise (fun x y => y.2 ≤ x.2) (insertDesc p l) := by
  intro l
  induction l with
  | nil => intro h; simp [insertDesc]
  | cons x xs ih =>
    intro h
    rw [List.pairwise_cons] at h
    obtain ⟨hx, hxs⟩ := h
    simp only [insertDesc]
    split
    · rename_i hlt
      rw [List.pairwise_cons]
      constructor
      · intro q hq
        rcases (mem_insertDesc p q xs).mp hq with h1 | h2
        · subst h1; exact le_of_lt hlt
        · exact hx q h2
      · exact ih hxs
    · rename_i hnlt
      rw [List.pairwise_cons]
      constructor
      · intro q hq
        rcases List.mem_cons.mp hq with h1 | h2
        · subst h1; exact le_of_not_lt hnlt
        · exact le_trans (hx q h2) (le_of_not_lt hnlt)
      · exact List.pairwise_cons.mpr ⟨hx, hxs⟩

/-- The descending sort is pairwise descending. -/
theorem sortDesc_pairwise : ∀ l, List.Pairwise (fun x y => y.2 ≤ x.2) (sortDesc l) := by
  intro l
  induction l with
  | nil => simp [sortDesc]
  | cons x xs ih => exact insertDesc_pairwise x (sortDesc xs) ih

/-- A threshold classification never yields NO_MATCH. -/
theorem fromScore_ne_noMatch (s : ℚ) : fromScore s ≠ .NO_MATCH := by
  unfold fromScore
  split_ifs <;> decide

/-- Scores of at least 95 classify as EXACT. -/
theorem fromScore_exact (s : ℚ) (h : 95 ≤ s) : fromScore s = .EXACT := by
  unfold fromScore
  rw [if_pos h]

/-- The invariant of every evaluated result: a candidate is attached exactly
when the tier is not NO_MATCH. -/
theorem evaluateResults_inv (cfg : MatcherConfig) (track : MixTrack)
    (rs : List SpotifyTrack) (nm : Str) :
    ((evaluateResults cfg track rs nm).spotifyTrack.isSome = true ↔
     (evaluateResults cfg track rs nm).confidence ≠ .NO_MATCH) := by
  unfold evaluateResults
  split
  · simp [noMatch]
  · split
    · simp [noMatch]
    · split
      · simp
      · simp [fromScore_ne_noMatch]

/-- The no-match constructor satisfies the invariant. -/
theorem noMatch_inv (track : MixTrack) (nm : Str) :
    ((noMatch track nm).spotifyTrack.isSome = true ↔
     (noMatch track nm).confidence ≠ .NO_MATCH) := by
  simp [noMatch]

/-- The cascade loop preserves the candidate-presence invariant. -/
theorem findMatchGo_inv (track : MixTrack) :
    ∀ (strats : List (Str × (MixTrack → Str → MatchResult × List QueryEvent)))
      (best : Option MatchResult),
      (∀ nm f, (nm, f) ∈ strats →
        ((f track nm).1.spotifyTrack.isSome = true ↔ (f track nm).1.confidence ≠ .NO_MATCH)) →
      (∀ b, best = some b → (b.spotifyTrack.isSome = true ↔ b.confidence ≠ .NO_MATCH)) →
      ((findMatchGo track best strats).1.spotifyTrack.isSome = true ↔
       (findMatchGo track best strats).1.confidence ≠ .NO_MATCH) := by
  intro strats
  induction strats with
  | nil =>
    intro best hS hB
    cases best with
    | none => simp [findMatchGo, noMatch]
    | some b => simpa [findMatchGo] using hB b rfl
  | cons p rest ih =>
    obtain ⟨nm, f⟩ := p
    intro best hS hB
    simp only [findMatchGo]
    split
    · exact hS nm f (List.mem_cons_self _ _)
    · apply ih
      · intro nm2 f2 hmem
        exact hS nm2 f2 (List.mem_cons_of_mem _ hmem)
      · intro b hb
        have hre : ((f track nm).1.spotifyTrack.isSome = true ↔
            (f track nm).1.confidence ≠ .NO_MATCH) :=
          hS nm f (List.mem_cons_self _ _)
        cases best with
        | none =>
          have hb2 : some (f track nm).1 = some b := hb
          rw [Option.some.injEq] at hb2
          subst hb2
          exact hre
        | some b0 =>
          have hb3 : (if b0.score < (f track nm).1.score then some (f track nm).1
              else some b0) = some b := hb
          by_cases hsc : b0.score < (f track nm).1.score
          · rw [if_pos hsc, Option.some.injEq] at hb3
            subst hb3
            exact hre
          · rw [if_neg hsc, Option.some.injEq] at hb3
            subst hb3
            exact hB _ rfl

/-- A strategy reaching EXACT or HIGH short-circuits the cascade loop: its
result and only its query events are returned. -/
theorem findMatchGo_shortcircuit (track : MixTrack) (best : Option MatchResult)
    (nm : Str) (f : MixTrack → Str → MatchResult × List QueryEvent)
    (rest : List (Str × (MixTrack → Str → MatchResult × List QueryEvent)))
    (h : (f track nm).1.confidence = .EXACT ∨ (f track nm).1.confidence = .HIGH) :
    findMatchGo track best ((nm, f) :: rest) = f track nm := by
  simp only [findMatchGo]
  rw [if_pos h]

/-- A result evaluated to a score of at least 95 is classified EXACT when the
configured minimum score is at most 95. -/
theorem evaluateResults_exact (cfg : MatcherConfig) (track : MixTrack)
    (rs : List SpotifyTrack) (nm : Str) (hmin : cfg.minScore ≤ 95)
    (h : 95 ≤ (evaluateResults cfg track rs nm).score) :
    (evaluateResults cfg track rs nm).confidence = .EXACT := by
  generalize hE : evaluateResults cfg track rs nm = R at h ⊢
  unfold evaluateResults at hE
  split at hE
  · subst hE
    norm_num [noMatch] at h
  · split at hE
    · subst hE
      norm_num [noMatch] at h
    · rename_i bt bs rest2 hne2
      split at hE
      · rename_i hcond
        subst hE
        have h2 : (95:ℚ) ≤ bs := h
        exact absurd (lt_of_lt_of_le hcond.1 hmin) (not_lt.mpr h2)
      · subst hE
        have h2 : (95:ℚ) ≤ bs := h
        exact fromScore_exact bs h2

end Mixes

namespace Mixes

/-- A reduced string is a fixed point of normalize. -/
theorem normalize_fixed (y : Str) (h : isReduced y = true) : normalize y = y := by
  unfold isReduced at h
  simp only [Bool.and_eq_true, beq_iff_eq] at h
  obtain ⟨⟨⟨⟨h1, h2⟩, h3⟩, h4⟩, h5⟩ := h
  unfold normalize
  rw [h1, h2, h3, h4, h5]

/-- Concrete ratio of a string with itself. -/
theorem ratioQ_a_a : ratioQ (str "a") (str "a") = 100 := by
  unfold ratioQ
  norm_num [show lcs (str "a") (str "a") = 1 from by decide,
    show (str "a").length = 1 from by decide]

/-- Concrete ratio of the two fixture titles. -/
theorem ratioQ_b_bq : ratioQ (str "b") (str "bq") = 200/3 := by
  unfold ratioQ
  norm_num [show lcs (str "b") (str "bq") = 1 from by decide,
    show (str "b").length = 1 from by decide,
    show (str "bq").length = 2 from by decide]

/-- Concrete best artist match of the fixture artist. -/
theorem bestArtistMatch_a : bestArtistMatch (str "a") [str "a"] = 100 := by
  simp [bestArtistMatch, ratioQ_a_a]

/-- Concrete artist score of the fixture artist. -/
theorem scoreArtist_a : scoreArtistStrict (str "a") [str "a"] = 100 := by
  have h1 : extractArtists (str "a") = [str "a"] := by decide
  have h2 : ([str "a"] : List Str).map normalize = [str "a"] := by decide
  simp only [scoreArtistStrict, h1, h2]
  norm_num [List.filter, bestArtistMatch_a]

/-- Concrete title score of the partial fixture pair. -/
theorem scoreTitle_b_bq : scoreTitleStrict (str "b") (str "bq") = 200/3 := by
  simp only [scoreTitleStrict]
  rw [if_neg (by decide), if_neg (by decide)]
  exact ratioQ_b_bq

/-- Concrete full score of the perfect fixture pair. -/
theorem scoreMatch_tA_cA : scoreMatch defaultWeights tA cA = 100 := by
  have h1 : normalize tA.artist = str "a" := by decide
  have h2 : normalize (removeRemix tA.title) = str "b" := by decide
  have h3 : normalize (removeRemix cA.name) = str "b" := by decide
  have h4 : extractRemix tA.title = none := by decide
  have h5 : extractRemix cA.name = none := by decide
  have h6 : cA.artists = [str "a"] := by decide
  simp only [scoreMatch, h1, h2, h3, h4, h5, h6, scoreArtist_a]
  norm_num [scoreTitleStrict, remixScoreFinal, scoreRemix, strOptTruthy]

/-- Concrete full score of the partial fixture pair. -/
theorem scoreMatch_tA_cB : scoreMatch defaultWeights tA cB = 260/3 := by
  have h1 : normalize tA.artist = str "a" := by decide
  have h2 : normalize (removeRemix tA.title) = str "b" := by decide
  have h3 : normalize (removeRemix cB.name) = str "bq" := by decide
  have h4 : extractRemix tA.title = none := by decide
  have h5 : extractRemix cB.name = none := by decide
  have h6 : cB.artists = [str "a"] := by decide
  simp only [scoreMatch, h1, h2, h3, h4, h5, h6, scoreArtist_a, scoreTitle_b_bq]
  norm_num [remixScoreFinal, scoreRemix, strOptTruthy]

/-- Concrete sorted scored list of the partial fixture pair. -/
theorem sortDesc_cB :
    sortDesc ([cB].map (fun r => (r, scoreMatch defaultWeights tA r))) = [(cB, 260/3)] := by
  simp [sortDesc, insertDesc, scoreMatch_tA_cB]

/-- Concrete evaluation of the perfect fixture pair under the default
configuration. -/
theorem evaluate_tA_cA : evaluateResults {} tA [cA] (str "exact") =
    ⟨tA, some cA, .EXACT, 100, str "exact", []⟩ := by
  have hs : sortDesc ([cA].map (fun r => (r, scoreMatch defaultWeights tA r))) = [(cA, 100)] := by
    simp [sortDesc, insertDesc, scoreMatch_tA_cA]
  simp only [evaluateResults, hs]
  norm_num [fromScore]

end Mixes

namespace Mixes

/-- C1 counterexample: contrary to the claim, the Scorer's remix-tag
extraction does return a tag for the source title Strobe (Original Mix)
(the parenthetical contains the keyword Mix), so the extraction is not
tagless and the remix component of score_match against the untagged
candidate Strobe is 0, not 100. -/
theorem c1_counterexample :
    ¬ (extractRemix (str "Strobe (Original Mix)") = none ∧
       remixScoreFinal (extractRemix (str "Strobe (Original Mix)"))
         (extractRemix (str "Strobe")) = 100) := by
  intro h
  have hx : extractRemix (str "Strobe (Original Mix)") = some (str "original mix") := by
    decide
  rw [hx] at h
  exact absurd h.1 (by simp)

/-- C1 amended: for the source title Strobe (Original Mix) and the candidate
Strobe, the extraction returns the tag original mix for the source (the
parenthetical contains the keyword Mix), the candidate has no tag, and the
remix sub-score used by score_match is therefore 0, a version mismatch. -/
theorem c1_amended :
    extractRemix (str "Strobe (Original Mix)") = some (str "original mix") ∧
    extractRemix (str "Strobe") = none ∧
    remixScoreFinal (extractRemix (str "Strobe (Original Mix)"))
      (extractRemix (str "Strobe")) = 0 := by
  refine ⟨by decide, by decide, ?_⟩
  rw [show extractRemix (str "Strobe (Original Mix)") = some (str "original mix") from
    by decide]
  rw [show extractRemix (str "Strobe") = none from by decide]
  have hc : (strOptTruthy (some (str "original mix")) && !strOptTruthy none) = true := by
    decide
  simp only [remixScoreFinal]
  rw [if_pos hc]

/-- C5: the confidence classification is a total function of the score with
the fixed boundaries 95, 90 and 80 (at least 95 EXACT, at least 90 HIGH, at
least 80 MEDIUM, else LOW), and it is monotonic: a lower score never earns a
better tier. -/
theorem c5_confidence_monotone (s1 s2 : ℚ) (h : s2 ≤ s1) :
    confidenceRank (fromScore s2) ≤ confidenceRank (fromScore s1) ∧
    (95 ≤ s1 → fromScore s1 = .EXACT) ∧
    (90 ≤ s1 ∧ s1 < 95 → fromScore s1 = .HIGH) ∧
    (80 ≤ s1 ∧ s1 < 90 → fromScore s1 = .MEDIUM) ∧
    (s1 < 80 → fromScore s1 = .LOW) := by
  refine ⟨?_, ?_, ?_, ?_, ?_⟩
  · unfold fromScore
    split_ifs <;> first | decide | linarith
  · intro h1
    unfold fromScore
    rw [if_pos h1]
  · intro h1
    unfold fromScore
    rw [if_neg (by linarith [h1.2]), if_pos h1.1]
  · intro h1
    unfold fromScore
    rw [if_neg (by linarith [h1.2]), if_neg (by linarith [h1.2]), if_pos h1.1]
  · intro h1
    unfold fromScore
    rw [if_neg (by linarith), if_neg (by linarith), if_neg (by linarith)]

/-- Witness for C5 at the concrete scores 96 and 85. -/
theorem c5_confidence_monotone_witness :
    (85 : ℚ) ≤ 96 ∧ confidenceRank (fromScore 85) ≤ confidenceRank (fromScore 96) := by
  have h : (85 : ℚ) ≤ 96 := by norm_num
  exact ⟨h, (c5_confidence_monotone 96 85 h).1⟩

/-- C6 counterexample: normalize is not idempotent. Quote characters are
removed only after the join-word replacements, so one pass over a '&' b
yields a & b while a second pass expands the now-exposed ampersand to
a and b. -/
theorem c6_counterexample :
    normalize (normalize (str "a \x27&\x27 b")) ≠ normalize (str "a \x27&\x27 b") ∧
    normalize (str "a \x27&\x27 b") = str "a & b" ∧
    normalize (normalize (str "a \x27&\x27 b")) = str "a and b" :=
  ⟨by decide, by decide, by decide⟩

/-- C6 amended: normalize is idempotent on every input whose normalized form
is reduced, that is, left unchanged by each normalization stage
(lowercasing, ASCII folding, the replacement table, the removal patterns
and whitespace collapsing); in general a second application can differ. -/
theorem c6_amended (x : Str) (h : isReduced (normalize x) = true) :
    normalize (normalize x) = normalize x :=
  normalize_fixed (normalize x) h

/-- Witness for C6 at the concrete input abc. -/
theorem c6_amended_witness :
    isReduced (normalize (str "abc")) = true ∧
    normalize (normalize (str "abc")) = normalize (str "abc") :=
  ⟨by decide, c6_amended (str "abc") (by decide)⟩

/-- C9 amended: the title_only strategy issues exactly one query whose track
field holds the remix-stripped title exactly as extract_remix_info returns
it (not search-normalized), with limit 20, and it evaluates the re-ranked
top 10 of the returned candidates. -/
theorem c9_title_only (cl : SpotifyClient) (cfg : MatcherConfig) (track : MixTrack)
    (nm : Str) :
    (titleOnlySearch cl cfg track nm).2 =
      [QueryEvent.free (str "track:\"" ++ (extractRemixInfo track.title).1 ++ str "\"") 20] ∧
    (titleOnlySearch cl cfg track nm).1 =
      evaluateResults cfg track
        (rerankTop10 track (cl.searchTrack
          (str "track:\"" ++ (extractRemixInfo track.title).1 ++ str "\"") 20)) nm ∧
    ∀ rs : List SpotifyTrack, (rerankTop10 track rs).length ≤ 10 := by
  refine ⟨rfl, rfl, ?_⟩
  intro rs
  unfold rerankTop10
  split
  · rename_i hx
    rw [List.isEmpty_iff.mp hx]
    simp
  · rw [List.length_map, List.length_take]
    exact min_le_left _ _

/-- C9 counterexample: for the title Hello! the issued title_only query holds
the title verbatim, while the search-normalized title would be hello, so the
claim that the query uses the search-normalized title is false. -/
theorem c9_counterexample :
    (titleOnlySearch clEmpty {} tHello (str "title_only")).2 =
      [QueryEvent.free (str "track:\"Hello!\"") 20] ∧
    normalizeForSearch (extractRemixInfo tHello.title).1 = str "hello" ∧
    str "track:\"Hello!\"" ≠
      str "track:\"" ++ normalizeForSearch (extractRemixInfo tHello.title).1 ++ str "\"" :=
  ⟨by decide, by decide, by decide⟩

end Mixes

namespace Mixes

/-- C2: when exactly one of the two titles yields a remix tag after remaster
stripping, the remix component used in score_match's aggregate is 0, and the
aggregate reduces to the artist and title contributions alone. -/
theorem c2_one_sided_remix_zero (w : ScorerWeights) (mdb : MixTrack) (sp : SpotifyTrack)
    (h : (extractRemix mdb.title ≠ none ∧ extractRemix sp.name = none) ∨
         (extractRemix mdb.title = none ∧ extractRemix sp.name ≠ none)) :
    remixScoreFinal (extractRemix mdb.title) (extractRemix sp.name) = 0 ∧
    scoreMatch w mdb sp =
      scoreArtistStrict (normalize mdb.artist) sp.artists * (30/100) +
      scoreTitleStrict (normalize (removeRemix mdb.title))
        (normalize (removeRemix sp.name)) * (40/100) := by
  have h0 : remixScoreFinal (extractRemix mdb.title) (extractRemix sp.name) = 0 := by
    rcases h with ⟨hm, hs⟩ | ⟨hm, hs⟩
    · obtain ⟨g, hg⟩ := Option.ne_none_iff_exists'.mp hm
      have hne := extractRemix_ne_nil _ _ hg
      have hgE : g.isEmpty = false := by
        cases g with
        | nil => exact absurd rfl hne
        | cons a as => rfl
      have hc : (strOptTruthy (extractRemix mdb.title) &&
          !strOptTruthy (extractRemix sp.name)) = true := by
        rw [hg, hs]
        simp [strOptTruthy, hgE]
      simp only [remixScoreFinal]
      rw [if_pos hc]
    · obtain ⟨g, hg⟩ := Option.ne_none_iff_exists'.mp hs
      have hne := extractRemix_ne_nil _ _ hg
      have hgE : g.isEmpty = false := by
        cases g with
        | nil => exact absurd rfl hne
        | cons a as => rfl
      have hc1 : (strOptTruthy (extractRemix mdb.title) &&
          !strOptTruthy (extractRemix sp.name)) = false := by
        rw [hm]
        simp [strOptTruthy]
      have hc2 : (!strOptTruthy (extractRemix mdb.title) &&
          strOptTruthy (extractRemix sp.name)) = true := by
        rw [hm, hg]
        simp [strOptTruthy, hgE]
      simp only [remixScoreFinal]
      rw [if_neg (by simp [hc1]), if_pos hc2]
  refine ⟨h0, ?_⟩
  unfold scoreMatch
  rw [h0]
  ring

/-- Witness for C2 at the Opus fixture pair of the specification example. -/
theorem c2_one_sided_remix_zero_witness :
    ((extractRemix tOpus.title ≠ none ∧ extractRemix cOpus.name = none) ∨
     (extractRemix tOpus.title = none ∧ extractRemix cOpus.name ≠ none)) ∧
    remixScoreFinal (extractRemix tOpus.title) (extractRemix cOpus.name) = 0 := by
  have h : (extractRemix tOpus.title ≠ none ∧ extractRemix cOpus.name = none) ∨
      (extractRemix tOpus.title = none ∧ extractRemix cOpus.name ≠ none) :=
    Or.inl ⟨by decide, by decide⟩
  exact ⟨h, (c2_one_sided_remix_zero defaultWeights tOpus cOpus h).1⟩

/-- C3: score_match equals exactly 0.30 times the artist score plus 0.40
times the title score plus 0.30 times the remix component, with these fixed
constants independent of the configurable weights object, and the value lies
between 0 and 100. -/
theorem c3_aggregate_fixed_weights (w w2 : ScorerWeights) (mdb : MixTrack)
    (sp : SpotifyTrack) :
    scoreMatch w mdb sp =
      scoreArtistStrict (normalize mdb.artist) sp.artists * (30/100) +
      scoreTitleStrict (normalize (removeRemix mdb.title))
        (normalize (removeRemix sp.name)) * (40/100) +
      remixScoreFinal (extractRemix mdb.title) (extractRemix sp.name) * (30/100) ∧
    scoreMatch w mdb sp = scoreMatch w2 mdb sp ∧
    0 ≤ scoreMatch w mdb sp ∧ scoreMatch w mdb sp ≤ 100 := by
  have h1 := scoreArtistStrict_nonneg (normalize mdb.artist) sp.artists
  have h2 := scoreTitleStrict_nonneg (normalize (removeRemix mdb.title))
    (normalize (removeRemix sp.name))
  have h3 := remixScoreFinal_nonneg (extractRemix mdb.title) (extractRemix sp.name)
  have h4 := scoreArtistStrict_le_100 (normalize mdb.artist) sp.artists
  have h5 := scoreTitleStrict_le_100 (normalize (removeRemix mdb.title))
    (normalize (removeRemix sp.name))
  have h6 := remixScoreFinal_le_100 (extractRemix mdb.title) (extractRemix sp.name)
  refine ⟨rfl, rfl, ?_, ?_⟩
  · unfold scoreMatch
    linarith
  · unfold scoreMatch
    linarith

/-- C4: for a non-empty extracted source-artist list, the artist sub-score is
100 exactly when every extracted source artist reaches a best candidate
match of at least 85; a proper non-empty subset gives matched over total
times 60; no matches give 0. -/
theorem c4_artist_score_cases (s : Str) (spAll : List Str)
    (hne : extractArtists s ≠ []) :
    (scoreArtistStrict s spAll = 100 ↔
      ∀ a ∈ extractArtists s, 85 ≤ bestArtistMatch a (spAll.map normalize)) ∧
    ((∃ a ∈ extractArtists s, 85 ≤ bestArtistMatch a (spAll.map normalize)) →
      ¬(∀ a ∈ extractArtists s, 85 ≤ bestArtistMatch a (spAll.map normalize)) →
      scoreArtistStrict s spAll =
        (((extractArtists s).filter
          (fun a => decide (85 ≤ bestArtistMatch a (spAll.map normalize)))).length : ℚ) /
          ((extractArtists s).length : ℚ) * 60) ∧
    ((∀ a ∈ extractArtists s, ¬ 85 ≤ bestArtistMatch a (spAll.map normalize)) →
      scoreArtistStrict s spAll = 0) := by
  have hlen : 0 < (extractArtists s).length := List.length_pos.mpr hne
  have hEmpF : (extractArtists s).isEmpty = false := by
    cases hx : extractArtists s with
    | nil => exact absurd hx hne
    | cons a as => rfl
  have hfl : (((extractArtists s).filter
      (fun a => decide (85 ≤ bestArtistMatch a (spAll.map normalize)))).length =
        (extractArtists s).length) ↔
      ∀ a ∈ extractArtists s, 85 ≤ bestArtistMatch a (spAll.map normalize) := by
    rw [List.filter_length_eq_length]
    simp only [decide_eq_true_eq]
  have hE : scoreArtistStrict s spAll =
      (if ((extractArtists s).filter
          (fun a => decide (85 ≤ bestArtistMatch a (spAll.map normalize)))).length =
            (extractArtists s).length then (100 : ℚ)
       else if 0 < ((extractArtists s).filter
          (fun a => decide (85 ≤ bestArtistMatch a (spAll.map normalize)))).length then
         ((((extractArtists s).filter
            (fun a => decide (85 ≤ bestArtistMatch a (spAll.map normalize)))).length : ℚ) /
           ((extractArtists s).length : ℚ)) * 60
       else 0) := by
    simp only [scoreArtistStrict]
    rw [hEmpF]
    rfl
  refine ⟨?_, ?_, ?_⟩
  · constructor
    · intro h100
      by_contra habs
      have hneq : ¬ ((extractArtists s).filter
          (fun a => decide (85 ≤ bestArtistMatch a (spAll.map normalize)))).length =
            (extractArtists s).length := fun hx => habs (hfl.mp hx)
      rw [hE, if_neg hneq] at h100
      have hle := List.length_filter_le
        (fun a => decide (85 ≤ bestArtistMatch a (spAll.map normalize))) (extractArtists s)
      split at h100
      · rename_i hpos
        have hlt : ((extractArtists s).filter
            (fun a => decide (85 ≤ bestArtistMatch a (spAll.map normalize)))).length <
              (extractArtists s).length := lt_of_le_of_ne hle hneq
        have hq : (((extractArtists s).filter
            (fun a => decide (85 ≤ bestArtistMatch a (spAll.map normalize)))).length : ℚ) * 60 =
            100 * ((extractArtists s).length : ℚ) := by
          have hd : ((extractArtists s).length : ℚ) ≠ 0 := by
            exact_mod_cast Nat.pos_iff_ne_zero.mp hlen
          field_simp at h100
          linarith [h100]
        have hqn : ((extractArtists s).filter
            (fun a => decide (85 ≤ bestArtistMatch a (spAll.map normalize)))).length * 60 =
            100 * (extractArtists s).length := by exact_mod_cast hq
        omega
      · exact absurd h100 (by norm_num)
    · intro hall
      rw [hE, if_pos (hfl.mpr hall)]
  · intro hex hnall
    have hneq : ¬ ((extractArtists s).filter
        (fun a => decide (85 ≤ bestArtistMatch a (spAll.map normalize)))).length =
          (extractArtists s).length := fun hx => hnall (hfl.mp hx)
    obtain ⟨a, ha, hba⟩ := hex
    have hmem : a ∈ (extractArtists s).filter
        (fun a => decide (85 ≤ bestArtistMatch a (spAll.map normalize))) :=
      List.mem_filter.mpr ⟨ha, by simp [hba]⟩
    have hpos : 0 < ((extractArtists s).filter
        (fun a => decide (85 ≤ bestArtistMatch a (spAll.map normalize)))).length :=
      List.length_pos.mpr (fun hx => by rw [hx] at hmem; simp at hmem)
    rw [hE, if_neg hneq, if_pos hpos]
  · intro hnone
    have hnil : (extractArtists s).filter
        (fun a => decide (85 ≤ bestArtistMatch a (spAll.map normalize))) = [] :=
      List.filter_eq_nil_iff.mpr (fun a ha => by simp [hnone a ha])
    have hzero : ((extractArtists s).filter
        (fun a => decide (85 ≤ bestArtistMatch a (spAll.map normalize)))).length = 0 := by
      rw [hnil]; rfl
    have hneq : ¬ ((extractArtists s).filter
        (fun a => decide (85 ≤ bestArtistMatch a (spAll.map normalize)))).length =
          (extractArtists s).length := by omega
    rw [hE, if_neg hneq, if_neg (by omega)]

/-- Witness for C4 at a one-artist source with an exactly matching candidate. -/
theorem c4_artist_score_cases_witness :
    extractArtists (str "a") ≠ [] ∧
    (scoreArtistStrict (str "a") [str "a"] = 100 ↔
      ∀ a ∈ extractArtists (str "a"),
        85 ≤ bestArtistMatch a (([str "a"] : List Str).map normalize)) := by
  have h : extractArtists (str "a") ≠ [] := by decide
  exact ⟨h, (c4_artist_score_cases (str "a") [str "a"] h).1⟩

end Mixes

namespace Mixes

/-- C7: a strategy whose evaluated result has confidence EXACT or HIGH is
returned immediately by the cascade loop together with only its own query
events, so no later strategy's search call is issued; in particular, under
the default configuration, when the exact strategy's result scores at least
95, find_match returns that result and the whole query trace is the single
exact search call. -/
theorem c7_short_circuit :
    (∀ (track : MixTrack) (best : Option MatchResult) (nm : Str)
        (f : MixTrack → Str → MatchResult × List QueryEvent)
        (rest : List (Str × (MixTrack → Str → MatchResult × List QueryEvent))),
      ((f track nm).1.confidence = .EXACT ∨ (f track nm).1.confidence = .HIGH) →
      findMatchGo track best ((nm, f) :: rest) = f track nm) ∧
    (∀ (cl : SpotifyClient) (track : MixTrack),
      95 ≤ (exactSearch cl {} track (str "exact")).1.score →
      findMatch cl {} track = exactSearch cl {} track (str "exact") ∧
      (findMatch cl {} track).2 = [QueryEvent.exact track.artist track.title 5]) := by
  constructor
  · intro track best nm f rest h
    exact findMatchGo_shortcircuit track best nm f rest h
  · intro cl track h
    have hconf : (exactSearch cl {} track (str "exact")).1.confidence = .EXACT := by
      have hx : (exactSearch cl {} track (str "exact")).1 =
          evaluateResults {} track (cl.searchTrackExact track.artist track.title 5)
            (str "exact") := rfl
      rw [hx] at h ⊢
      exact evaluateResults_exact {} track _ _
        (by norm_num [show ({} : MatcherConfig).minScore = 90 from rfl]) h
    have hfm : findMatch cl {} track = exactSearch cl {} track (str "exact") := by
      unfold findMatch strategyList
      exact findMatchGo_shortcircuit track none (str "exact") (exactSearch cl {}) _
        (Or.inl hconf)
    refine ⟨hfm, ?_⟩
    rw [hfm]
    rfl

/-- Witness for C7: a client whose exact search returns a perfectly matching
candidate short-circuits after the single exact query. -/
theorem c7_short_circuit_witness :
    95 ≤ (exactSearch clPerfect {} tA (str "exact")).1.score ∧
    findMatch clPerfect {} tA = exactSearch clPerfect {} tA (str "exact") ∧
    (findMatch clPerfect {} tA).2 = [QueryEvent.exact tA.artist tA.title 5] := by
  have hx : (exactSearch clPerfect {} tA (str "exact")).1 =
      (⟨tA, some cA, .EXACT, 100, str "exact", []⟩ : MatchResult) := by
    show evaluateResults {} tA [cA] (str "exact") = _
    exact evaluate_tA_cA
  have h : 95 ≤ (exactSearch clPerfect {} tA (str "exact")).1.score := by
    rw [hx]
    norm_num
  obtain ⟨h1, h2⟩ := c7_short_circuit.2 clPerfect tA h
  exact ⟨h, h1, h2⟩

/-- C8: evaluating a non-empty candidate list whose descending sort starts
with the best-scored pair: the head score dominates every candidate's score;
below the configured minimum with low confidence excluded, the result is
NO_MATCH with no track, the best score preserved for diagnostics, and up to
5 alternates that are never empty; otherwise the top candidate is matched
with its threshold tier, its score, and up to 4 runner-up alternates. -/
theorem c8_evaluate_results (cfg : MatcherConfig) (track : MixTrack)
    (results : List SpotifyTrack) (nm : Str) (bt : SpotifyTrack) (bs : ℚ)
    (rest : List (SpotifyTrack × ℚ))
    (hsort : sortDesc (results.map (fun r => (r, scoreMatch defaultWeights track r))) =
      (bt, bs) :: rest) :
    (∀ r ∈ results, scoreMatch defaultWeights track r ≤ bs) ∧
    (bs < cfg.minScore ∧ cfg.includeLowConfidence = false →
      evaluateResults cfg track results nm =
        ⟨track, none, .NO_MATCH, bs, nm, (((bt, bs) :: rest).take 5).map Prod.fst⟩ ∧
      (evaluateResults cfg track results nm).alternatives ≠ [] ∧
      (evaluateResults cfg track results nm).alternatives.length ≤ 5) ∧
    (¬(bs < cfg.minScore ∧ cfg.includeLowConfidence = false) →
      evaluateResults cfg track results nm =
        ⟨track, some bt, fromScore bs, bs, nm, (rest.take 4).map Prod.fst⟩ ∧
      (evaluateResults cfg track results nm).alternatives.length ≤ 4) := by
  have hneq : results ≠ [] := by
    intro h0
    subst h0
    simp [sortDesc] at hsort
  have hemp : results.isEmpty = false := by
    cases results with
    | nil => exact absurd rfl hneq
    | cons a as => rfl
  have hmax : ∀ r ∈ results, scoreMatch defaultWeights track r ≤ bs := by
    intro r hr
    have hmem : (r, scoreMatch defaultWeights track r) ∈
        sortDesc (results.map (fun r => (r, scoreMatch defaultWeights track r))) :=
      (sortDesc_perm _).mem_iff.mpr (List.mem_map_of_mem _ hr)
    rw [hsort] at hmem
    have hpw := sortDesc_pairwise (results.map (fun r => (r, scoreMatch defaultWeights track r)))
    rw [hsort] at hpw
    rcases List.mem_cons.mp hmem with h1 | h2
    · have : (r, scoreMatch defaultWeights track r).2 = bs := by rw [h1]
      simpa using le_of_eq this
    · exact (List.pairwise_cons.mp hpw).1 _ h2
  have hEv : evaluateResults cfg track results nm =
      (if bs < cfg.minScore ∧ cfg.includeLowConfidence = false then
        (⟨track, none, .NO_MATCH, bs, nm,
          (((bt, bs) :: rest).take 5).map Prod.fst⟩ : MatchResult)
      else ⟨track, some bt, fromScore bs, bs, nm, (rest.take 4).map Prod.fst⟩) := by
    unfold evaluateResults
    rw [hemp, hsort]
    rfl
  refine ⟨hmax, ?_, ?_⟩
  · intro hc
    rw [hEv, if_pos hc]
    refine ⟨rfl, ?_, ?_⟩
    · simp [List.take_succ_cons]
    · simp only [MatchResult.alternatives]
      rw [List.length_map, List.length_take]
      exact min_le_left _ _
  · intro hc
    rw [hEv, if_neg hc]
    refine ⟨rfl, ?_⟩
    simp only [MatchResult.alternatives]
    rw [List.length_map, List.length_take]
    exact min_le_left _ _

/-- Witness for C8: a single candidate scoring 260 over 3 (about 86.67),
below the default minimum of 90, yields NO_MATCH with the score preserved
and the candidate kept as an alternate. -/
theorem c8_evaluate_results_witness :
    sortDesc (([cB] : List SpotifyTrack).map
      (fun r => (r, scoreMatch defaultWeights tA r))) = [(cB, 260/3)] ∧
    (∀ r ∈ ([cB] : List SpotifyTrack), scoreMatch defaultWeights tA r ≤ 260/3) ∧
    evaluateResults {} tA [cB] (str "exact") =
      ⟨tA, none, .NO_MATCH, 260/3, str "exact", [cB]⟩ := by
  have hs : sortDesc (([cB] : List SpotifyTrack).map
      (fun r => (r, scoreMatch defaultWeights tA r))) = [(cB, 260/3)] := sortDesc_cB
  have hc : (260/3 : ℚ) < ({} : MatcherConfig).minScore ∧
      ({} : MatcherConfig).includeLowConfidence = false := by
    constructor
    · show (260/3 : ℚ) < 90
      norm_num
    · rfl
  have hall := c8_evaluate_results {} tA [cB] (str "exact") cB (260/3) [] hs
  exact ⟨hs, hall.1, (hall.2.1 hc).1⟩

/-- C10: every result produced by find_match attaches a candidate exactly
when its confidence tier is not NO_MATCH, and consequently the matched flag
holds exactly when a candidate track is attached. -/
theorem c10_result_invariant (cl : SpotifyClient) (cfg : MatcherConfig) (track : MixTrack) :
    ((findMatch cl cfg track).1.spotifyTrack.isSome = true ↔
      (findMatch cl cfg track).1.confidence ≠ .NO_MATCH) ∧
    ((findMatch cl cfg track).1.matched = true ↔
      (findMatch cl cfg track).1.spotifyTrack.isSome = true) := by
  have hinv : ((findMatch cl cfg track).1.spotifyTrack.isSome = true ↔
      (findMatch cl cfg track).1.confidence ≠ .NO_MATCH) := by
    apply findMatchGo_inv track (strategyList cl cfg) none
    · intro nm f hmem
      simp only [strategyList, List.mem_cons, List.not_mem_nil, or_false,
        Prod.mk.injEq] at hmem
      rcases hmem with ⟨h1, h2⟩ | ⟨h1, h2⟩ | ⟨h1, h2⟩ | ⟨h1, h2⟩ <;>
        subst h1 <;> subst h2 <;> exact evaluateResults_inv cfg track _ _
    · intro b hb
      exact absurd hb (by simp)
  refine ⟨hinv, ?_⟩
  unfold MatchResult.matched
  constructor
  · intro h
    have h2 : (findMatch cl cfg track).1.spotifyTrack.isSome = true ∧
        ((findMatch cl cfg track).1.confidence != .NO_MATCH) = true := by
      simpa [Bool.and_eq_true] using h
    exact h2.1
  · intro h
    rw [Bool.and_eq_true]
    exact ⟨h, bne_iff_ne.mpr (hinv.mp h)⟩

end Mixes
